import Mathlib

/- Shallow embedding of the log monitoring tool in automations.py.
   Strings are modelled as Lean String / List Char, and case folding is
   ASCII (Char.toLower), which is faithful on the ASCII letters the marker
   literals use.  Regex literals from the source are expanded into explicit
   substring searches, and the two strptime grammars are expanded into
   explicit character-level parsers following the documented directive
   patterns of the Python strptime implementation. -/

/-- Lowercased character list of a string (ASCII case folding). -/
def lcL (s : String) : List Char :=
  s.toList.map Char.toLower

/-- Boolean prefix test on character lists. -/
def isPrefixOfB : List Char → List Char → Bool
  | [], _ => true
  | _ :: _, [] => false
  | a :: as, b :: bs => a == b && isPrefixOfB as bs

/-- Boolean infix (substring) test on character lists. -/
def isInfixOfB (p : List Char) : List Char → Bool
  | [] => isPrefixOfB p []
  | c :: cs => isPrefixOfB p (c :: cs) || isInfixOfB p cs

/-- Case-insensitive substring test.  Models re.search of a literal pattern
with re.IGNORECASE, and equally the Python expression pat in text.lower()
for a lowercase literal pat. -/
def containsIC (text pat : String) : Bool :=
  isInfixOfB (lcL pat) (lcL text)

/-- Head test for a literal followed by one decimal digit: the shape of the
regex Linhas afetadas colon space digits at a given position. -/
def litDigitHead : List Char → List Char → Bool
  | [], [] => false
  | [], c :: _ => c.isDigit
  | _ :: _, [] => false
  | a :: as, b :: bs => a == b && litDigitHead as bs

/-- Search version of litDigitHead over every position of the text. -/
def litDigitSearch (p : List Char) : List Char → Bool
  | [] => false
  | c :: cs => litDigitHead p (c :: cs) || litDigitSearch p cs

/-- The success pattern list of LogParser, as one boolean disjunction.
Each disjunct is re.search of the corresponding pattern with IGNORECASE;
the only non-literal pattern is the row-count one, whose trailing digit
class is modelled by litDigitSearch. -/
def successMatch (t : String) : Bool :=
  containsIC t "Data da última atualização inserida na tabela de controle (sucesso)" ||
  litDigitSearch (lcL "Linhas afetadas: ") (lcL t) ||
  containsIC t "Nova linha inserida na tabela CONTROL com sucesso" ||
  containsIC t "Conexão aberta com sucesso" ||
  containsIC t "Finalizado sem erros" ||
  containsIC t "concluída com sucesso" ||
  containsIC t "processados com sucesso"

/-- The failure pattern list of LogParser. -/
def failureMatch (t : String) : Bool :=
  containsIC t "Erro:" ||
  containsIC t "Falha:" ||
  containsIC t "Exception:" ||
  containsIC t "Error:" ||
  containsIC t "Timeout" ||
  containsIC t "falhou" ||
  containsIC t "erro"

/-- The pending pattern list of LogParser. -/
def pendingMatch (t : String) : Bool :=
  containsIC t "Processamento iniciado" ||
  containsIC t "Iniciando" ||
  containsIC t "Aguardando" ||
  containsIC t "Processando"

/-- LogParser.determine_status: ordered marker checks with early return,
then the fallback that returns OK exactly when neither erro nor error
occurs in the lowercased text. -/
def determine_status (log_content : String) : String :=
  if successMatch log_content then "OK"
  else if failureMatch log_content then "FAIL"
  else if pendingMatch log_content then "PENDING"
  else if !(containsIC log_content "erro") && !(containsIC log_content "error") then "OK"
  else "FAIL"

theorem isPrefixOfB_append_left (p q : List Char) :
    ∀ t, isPrefixOfB (p ++ q) t = true → isPrefixOfB p t = true := by
  induction p with
  | nil => intro t _; rfl
  | cons a as ih =>
    intro t h
    cases t with
    | nil => simp [isPrefixOfB] at h
    | cons b bs =>
      simp only [List.cons_append, isPrefixOfB, Bool.and_eq_true] at h ⊢
      exact ⟨h.1, ih bs h.2⟩

theorem isInfixOfB_append_left (p q : List Char) :
    ∀ t, isInfixOfB (p ++ q) t = true → isInfixOfB p t = true := by
  intro t
  induction t with
  | nil =>
    intro h
    simpa [isInfixOfB] using isPrefixOfB_append_left p q [] (by simpa [isInfixOfB] using h)
  | cons c cs ih =>
    intro h
    simp only [isInfixOfB, Bool.or_eq_true] at h ⊢
    rcases h with h | h
    · exact Or.inl (isPrefixOfB_append_left p q _ h)
    · exact Or.inr (ih h)

theorem containsIC_error_erro (t : String) :
    containsIC t "error" = true → containsIC t "erro" = true := by
  intro h
  have e : lcL "error" = lcL "erro" ++ [Char.toLower 'r'] := by decide
  unfold containsIC at h ⊢
  rw [e] at h
  exact isInfixOfB_append_left _ _ _ h

/-- C1: a text in which at least one success marker appears anywhere is
classified OK, whatever else (including explicit failure markers) the text
contains: the success markers are checked first and the first match wins. -/
theorem success_marker_forces_OK (t : String) (h : successMatch t = true) :
    determine_status t = "OK" := by
  simp [determine_status, h]

theorem success_marker_forces_OK_witness :
    successMatch "Finalizado sem erros\nError: timeout" = true ∧
      determine_status "Finalizado sem erros\nError: timeout" = "OK" :=
  ⟨by decide, success_marker_forces_OK _ (by decide)⟩

/-- C2: determine_status is a total function of the text and its value is
always exactly one of OK, FAIL and PENDING. -/
theorem determine_status_total (t : String) :
    determine_status t = "OK" ∨ determine_status t = "FAIL" ∨
      determine_status t = "PENDING" := by
  unfold determine_status
  split
  · exact Or.inl rfl
  split
  · exact Or.inr (Or.inl rfl)
  split
  · exact Or.inr (Or.inr rfl)
  split
  · exact Or.inl rfl
  · exact Or.inr (Or.inl rfl)

/-- C3: on a text matched by no success, failure or pending marker the
classifier returns OK exactly when the text contains neither the substring
erro nor the substring error case-insensitively, and FAIL otherwise; in
particular the empty text is classified OK. -/
theorem fallback_classification :
    (∀ t : String, successMatch t = false → failureMatch t = false →
      pendingMatch t = false →
      determine_status t =
        (if !(containsIC t "erro") && !(containsIC t "error") then "OK" else "FAIL"))
    ∧ determine_status "" = "OK" := by
  constructor
  · intro t h1 h2 h3
    simp [determine_status, h1, h2, h3]
  · decide

theorem fallback_classification_witness :
    determine_status "" = "OK" ∧
      determine_status "linha informativa qualquer" =
        (if !(containsIC "linha informativa qualquer" "erro") &&
            !(containsIC "linha informativa qualquer" "error") then "OK" else "FAIL") :=
  ⟨fallback_classification.2,
    fallback_classification.1 _ (by decide) (by decide) (by decide)⟩

/-- C4: with no success marker present, any failure marker forces FAIL
(checked before the pending markers), the sample failure text is FAIL, and
a text with only the pending marker Processando is PENDING. -/
theorem failure_before_pending :
    (∀ t : String, successMatch t = false → failureMatch t = true →
      determine_status t = "FAIL")
    ∧ determine_status "Erro: falha na validação" = "FAIL"
    ∧ (∀ t : String, successMatch t = false → failureMatch t = false →
        pendingMatch t = true → determine_status t = "PENDING")
    ∧ determine_status "Processando" = "PENDING" := by
  refine ⟨?_, by decide, ?_, by decide⟩
  · intro t h1 h2
    simp [determine_status, h1, h2]
  · intro t h1 h2 h3
    simp [determine_status, h1, h2, h3]

theorem failure_before_pending_witness :
    determine_status "Erro: timeout Processando" = "FAIL" ∧
      determine_status "Aguardando" = "PENDING" :=
  ⟨failure_before_pending.1 _ (by decide) (by decide),
    failure_before_pending.2.2.1 _ (by decide) (by decide) (by decide)⟩

/-- C10: the final FAIL fallback of determine_status is unreachable: a text
matched by no success, failure or pending pattern is always classified OK,
because any occurrence of erro or error would already have matched the
case-insensitive failure pattern erro. -/
theorem fail_fallback_unreachable (t : String) (h1 : successMatch t = false)
    (h2 : failureMatch t = false) (h3 : pendingMatch t = false) :
    determine_status t = "OK" := by
  have herro : containsIC t "erro" = false := by
    unfold failureMatch at h2
    simp only [Bool.or_eq_false_iff] at h2
    exact h2.2
  have herror : containsIC t "error" = false := by
    cases he : containsIC t "error"
    · rfl
    · rw [containsIC_error_erro t he] at herro
      exact absurd herro (by simp)
  simp [determine_status, h1, h2, h3, herro, herror]

theorem fail_fallback_unreachable_witness :
    determine_status "tudo bem com o processo" = "OK" :=
  fail_fallback_unreachable _ (by decide) (by decide) (by decide)

/- Timestamp extraction.  LogParser.parse_execution_date searches the text
for the header regex with the literal of Execução, a lazy one-line capture
and the closing marker, strips the capture, removes every occurrence of
the offset token, and tries the two strptime grammars in order. -/

/-- Case-insensitive character equality (ASCII folding), as used by
re.IGNORECASE on the header literal. -/
def eqIC (a b : Char) : Bool := a.toLower == b.toLower

/-- Case-insensitive prefix test on character lists. -/
def isPrefixICB : List Char → List Char → Bool
  | [], _ => true
  | _ :: _, [] => false
  | a :: as, b :: bs => eqIC a b && isPrefixICB as bs

/-- Lazy capture of the header regex: the shortest nonempty run of
characters other than a newline that is followed by the closing marker,
returned in original case. -/
def lazyCapture : List Char → Option (List Char)
  | [] => none
  | c :: rest =>
    if c == '\n' then none
    else if isPrefixICB " ===".toList rest then some [c]
    else
      match lazyCapture rest with
      | some cap => some (c :: cap)
      | none => none

/-- The opening literal of the execution header regex, lowercased. -/
def headerLit : List Char := "=== execução: ".toList

/-- Leftmost search of the header regex over the text, returning the
captured group of the first position where the whole pattern matches. -/
def searchHeader : List Char → Option (List Char)
  | [] => none
  | t@(_ :: rest) =>
    if isPrefixICB headerLit t then
      match lazyCapture (t.drop headerLit.length) with
      | some cap => some cap
      | none => searchHeader rest
    else searchHeader rest

/-- ASCII whitespace test, modelling both str.strip and the regex class
that one space in a strptime format expands to. -/
def isSpaceB (c : Char) : Bool :=
  c == ' ' || c == '\t' || c == '\n' || c == '\r' || c == '\x0b' || c == '\x0c'

/-- Model of str.strip with no argument. -/
def stripB (l : List Char) : List Char :=
  ((l.dropWhile isSpaceB).reverse.dropWhile isSpaceB).reverse

/-- Model of the replace call that deletes every occurrence of the offset
token, scanning left to right without overlap. -/
def removeOffset : List Char → List Char
  | ' ' :: '-' :: '0' :: '3' :: rest => removeOffset rest
  | c :: rest => c :: removeOffset rest
  | [] => []

/-- One mandatory whitespace character followed by any further run, the
expansion of a literal space in a strptime format. -/
def ws1 : List Char → Option (List Char)
  | c :: rest => if isSpaceB c then some (rest.dropWhile isSpaceB) else none
  | [] => none

/-- One mandatory literal character. -/
def chompChar (c : Char) : List Char → Option (List Char)
  | b :: rest => if b == c then some rest else none
  | [] => none

/-- Decimal value of an ASCII digit character. -/
def digitVal (c : Char) : Option Nat :=
  if c.isDigit then some (c.toNat - 48) else none

/-- Candidate reads of a numeric strptime directive at a position, in the
order of the regex alternation: the two-digit alternatives first when the
two-digit value lies in the allowed range, then the one-digit alternative
when its value lies in its range. -/
def numCand (lo2 hi2 lo1 hi1 : Nat) (s : List Char) : List (Nat × List Char) :=
  (match s with
   | a :: b :: rest =>
     match digitVal a, digitVal b with
     | some x, some y =>
       if lo2 ≤ 10 * x + y ∧ 10 * x + y ≤ hi2 then [(10 * x + y, rest)] else []
     | _, _ => []
   | _ => []) ++
  (match s with
   | a :: _ :: _ =>
     match digitVal a with
     | some x => if lo1 ≤ x ∧ x ≤ hi1 then [(x, s.drop 1)] else []
     | none => []
   | [a] =>
     match digitVal a with
     | some x => if lo1 ≤ x ∧ x ≤ hi1 then [(x, [])] else []
     | none => []
   | [] => [])

/-- Backtracking over the ordered candidate list: the first candidate whose
continuation succeeds wins, as in the regex engine. -/
def tryCands {α : Type} : List (Nat × List Char) → (Nat → List Char → Option α) → Option α
  | [], _ => none
  | (v, rest) :: more, k =>
    match k v rest with
    | some r => some r
    | none => tryCands more k

/-- Abbreviated weekday directive over the C locale names. -/
def chompWeekday (s : List Char) : Option (List Char) :=
  if isPrefixOfB "mon".toList s then some (s.drop 3)
  else if isPrefixOfB "tue".toList s then some (s.drop 3)
  else if isPrefixOfB "wed".toList s then some (s.drop 3)
  else if isPrefixOfB "thu".toList s then some (s.drop 3)
  else if isPrefixOfB "fri".toList s then some (s.drop 3)
  else if isPrefixOfB "sat".toList s then some (s.drop 3)
  else if isPrefixOfB "sun".toList s then some (s.drop 3)
  else none

/-- Abbreviated month directive over the C locale names, with its number. -/
def chompMonth (s : List Char) : Option (Nat × List Char) :=
  if isPrefixOfB "jan".toList s then some (1, s.drop 3)
  else if isPrefixOfB "feb".toList s then some (2, s.drop 3)
  else if isPrefixOfB "mar".toList s then some (3, s.drop 3)
  else if isPrefixOfB "apr".toList s then some (4, s.drop 3)
  else if isPrefixOfB "may".toList s then some (5, s.drop 3)
  else if isPrefixOfB "jun".toList s then some (6, s.drop 3)
  else if isPrefixOfB "jul".toList s then some (7, s.drop 3)
  else if isPrefixOfB "aug".toList s then some (8, s.drop 3)
  else if isPrefixOfB "sep".toList s then some (9, s.drop 3)
  else if isPrefixOfB "oct".toList s then some (10, s.drop 3)
  else if isPrefixOfB "nov".toList s then some (11, s.drop 3)
  else if isPrefixOfB "dec".toList s then some (12, s.drop 3)
  else none

/-- AM or PM marker; the boolean is true for PM. -/
def chompAmPm (s : List Char) : Option (Bool × List Char) :=
  if isPrefixOfB "am".toList s then some (false, s.drop 2)
  else if isPrefixOfB "pm".toList s then some (true, s.drop 2)
  else none

/-- Year directive: exactly four decimal digits. -/
def chompYear4 : List Char → Option (Nat × List Char)
  | a :: b :: c :: d :: rest =>
    match digitVal a, digitVal b, digitVal c, digitVal d with
    | some x, some y, some z, some w => some (1000 * x + 100 * y + 10 * z + w, rest)
    | _, _, _, _ => none
  | _ => none

/-- Parsed calendar values, the payload a successful strptime produces. -/
structure DT where
  year : Nat
  month : Nat
  day : Nat
  hour : Nat
  minute : Nat
  second : Nat
deriving DecidableEq

def isLeap (y : Nat) : Bool :=
  y % 4 == 0 && (y % 100 != 0 || y % 400 == 0)

def daysInMonth (y m : Nat) : Nat :=
  if m == 2 then (if isLeap y then 29 else 28)
  else if m == 4 || m == 6 || m == 9 || m == 11 then 30
  else 31

/-- Validation performed by the datetime constructor; a value outside any
range raises there, which the source catches like a parse failure. -/
def mkDatetime (y mo d h mi s : Nat) : Option DT :=
  if 1 ≤ y ∧ y ≤ 9999 ∧ 1 ≤ mo ∧ mo ≤ 12 ∧ 1 ≤ d ∧ d ≤ daysInMonth y mo ∧
      h ≤ 23 ∧ mi ≤ 59 ∧ s ≤ 59 then
    some ⟨y, mo, d, h, mi, s⟩
  else none

/-- Conversion of a 12-hour value with the PM flag, as strptime does it. -/
def convHour12 (h : Nat) (pm : Bool) : Nat :=
  if pm then (if h == 12 then 12 else h + 12) else (if h == 12 then 0 else h)

/-- Grammar 1: weekday, month name, day, 12-hour time, AM or PM, year,
over the whole string. -/
def gram1 (t : List Char) : Option DT := do
  let s0 := t.map Char.toLower
  let s1 ← chompWeekday s0
  let s2 ← ws1 s1
  let (mo, s3) ← chompMonth s2
  let s4 ← ws1 s3
  tryCands (numCand 1 31 1 9 s4) (fun day s5 => do
    let s6 ← ws1 s5
    tryCands (numCand 1 12 1 9 s6) (fun hr s7 => do
      let s8 ← chompChar ':' s7
      tryCands (numCand 0 59 0 9 s8) (fun mi s9 => do
        let s10 ← chompChar ':' s9
        tryCands (numCand 0 61 0 9 s10) (fun sec s11 => do
          let s12 ← ws1 s11
          let (pm, s13) ← chompAmPm s12
          let s14 ← ws1 s13
          let (yr, s15) ← chompYear4 s14
          if s15.isEmpty then mkDatetime yr mo day (convHour12 hr pm) mi sec
          else none))))

/-- Grammar 2: slash-separated month, day and year, then 12-hour time with
the AM or PM marker, over the whole string. -/
def gram2 (t : List Char) : Option DT := do
  let s0 := t.map Char.toLower
  tryCands (numCand 1 12 1 9 s0) (fun mo s1 => do
    let s2 ← chompChar '/' s1
    tryCands (numCand 1 31 1 9 s2) (fun day s3 => do
      let s4 ← chompChar '/' s3
      let (yr, s5) ← chompYear4 s4
      let s6 ← ws1 s5
      tryCands (numCand 1 12 1 9 s6) (fun hr s7 => do
        let s8 ← chompChar ':' s7
        tryCands (numCand 0 59 0 9 s8) (fun mi s9 => do
          let s10 ← chompChar ':' s9
          tryCands (numCand 0 61 0 9 s10) (fun sec s11 => do
            let s12 ← ws1 s11
            let (pm, s13) ← chompAmPm s12
            if s13.isEmpty then mkDatetime yr mo day (convHour12 hr pm) mi sec
            else none)))))

/-- Decimal digit character of the last digit of a number, as the zero
padded formatting directives emit it. -/
def digitToChar (n : Nat) : Char :=
  match n % 10 with
  | 0 => '0'
  | 1 => '1'
  | 2 => '2'
  | 3 => '3'
  | 4 => '4'
  | 5 => '5'
  | 6 => '6'
  | 7 => '7'
  | 8 => '8'
  | _ => '9'

/-- Canonical output formatting of a parsed date, with a four digit zero
padded year and two digit zero padded remaining fields. -/
def formatDT (dt : DT) : List Char :=
  digitToChar (dt.year / 1000) :: digitToChar (dt.year / 100) ::
  digitToChar (dt.year / 10) :: digitToChar dt.year ::
  '-' :: digitToChar (dt.month / 10) :: digitToChar dt.month ::
  '-' :: digitToChar (dt.day / 10) :: digitToChar dt.day ::
  ' ' :: digitToChar (dt.hour / 10) :: digitToChar dt.hour ::
  ':' :: digitToChar (dt.minute / 10) :: digitToChar dt.minute ::
  ':' :: digitToChar (dt.second / 10) :: digitToChar dt.second :: []

/-- LogParser.parse_execution_date: header search, strip, offset removal,
grammar 1 on the cleaned string, then grammar 2 on the stripped original,
and absence when everything fails. -/
def parse_execution_date (log_content : String) : Option String :=
  match searchHeader log_content.toList with
  | none => none
  | some cap =>
    match gram1 (removeOffset (stripB cap)) with
    | some dt => some (String.mk (formatDT dt))
    | none =>
      match gram2 (stripB cap) with
      | some dt => some (String.mk (formatDT dt))
      | none => none

/-- Shape check for the canonical timestamp format: four digits, dash, two
digits, dash, two digits, space, two digits, colon, two digits, colon, two
digits. -/
def isCanonicalTimestamp (s : String) : Bool :=
  match s.toList with
  | [y1, y2, y3, y4, c1, m1, m2, c2, d1, d2, c3, h1, h2, c4, n1, n2, c5, s1, s2] =>
    y1.isDigit && y2.isDigit && y3.isDigit && y4.isDigit && c1 == '-' &&
    m1.isDigit && m2.isDigit && c2 == '-' && d1.isDigit && d2.isDigit && c3 == ' ' &&
    h1.isDigit && h2.isDigit && c4 == ':' && n1.isDigit && n2.isDigit && c5 == ':' &&
    s1.isDigit && s2.isDigit
  | _ => false

theorem digitToChar_isDigit (n : Nat) : (digitToChar n).isDigit = true := by
  unfold digitToChar
  split <;> rfl

theorem formatDT_canonical (dt : DT) :
    isCanonicalTimestamp (String.mk (formatDT dt)) = true := by
  simp [isCanonicalTimestamp, formatDT, String.toList, digitToChar_isDigit]

/-- C5: the sample execution header is parsed to exactly the expected
canonical string, and every timestamp the extractor ever returns is in the
canonical format. -/
theorem timestamp_header_canonical :
    parse_execution_date "=== Execução: Wed Aug 20 09:23:03 AM -03 2025 ===" =
      some "2025-08-20 09:23:03"
    ∧ ∀ t s : String, parse_execution_date t = some s → isCanonicalTimestamp s = true := by
  refine ⟨by decide, ?_⟩
  intro t s h
  unfold parse_execution_date at h
  split at h
  · exact absurd h (by simp)
  · split at h
    · simp only [Option.some.injEq] at h
      rw [← h]
      exact formatDT_canonical _
    · split at h
      · simp only [Option.some.injEq] at h
        rw [← h]
        exact formatDT_canonical _
      · exact absurd h (by simp)

theorem timestamp_header_canonical_witness :
    isCanonicalTimestamp "2025-08-20 09:23:03" = true :=
  timestamp_header_canonical.2 "=== Execução: Wed Aug 20 09:23:03 AM -03 2025 ===" _
    timestamp_header_canonical.1

/-- C6 counterexample: a log consisting of the bare date string with no
execution header wrapper is not parsed at all, because the header regex
never matches, so the extractor returns the absent value rather than the
canonical timestamp the claim promises. -/
theorem no_wrapper_not_parsed :
    parse_execution_date "8/20/2025 9:23:06 AM" = none ∧
      parse_execution_date "8/20/2025 9:23:06 AM" ≠ some "2025-08-20 09:23:06" := by
  exact ⟨by decide, by decide⟩

/-- C6 amended: a slash-separated date inside the execution header wrapper
is parsed to the canonical timestamp through grammar 2 after grammar 1
fails on it, and whenever both grammars fail on a captured header date the
extractor returns the absent value rather than an error. -/
theorem wrapped_slash_date_grammar2 :
    parse_execution_date "=== Execução: 8/20/2025 9:23:06 AM ===" =
      some "2025-08-20 09:23:06"
    ∧ gram1 ("8/20/2025 9:23:06 AM".toList) = none
    ∧ ∀ (t : String) (cap : List Char),
        searchHeader t.toList = some cap →
        gram1 (removeOffset (stripB cap)) = none →
        gram2 (stripB cap) = none →
        parse_execution_date t = none := by
  refine ⟨by decide, by decide, ?_⟩
  intro t cap h1 h2 h3
  unfold parse_execution_date
  rw [h1]
  simp only [h2, h3]

theorem wrapped_slash_date_grammar2_witness :
    parse_execution_date "=== Execução: data indisponível ===" = none :=
  wrapped_slash_date_grammar2.2.2 _ ("data indisponível".toList)
    (by decide) (by decide) (by decide)

/- Message extraction and the full key-info record of LogParser. -/

/-- Model of split on the newline character, as str.split produces it:
the empty text gives one empty line, and a trailing newline gives a final
empty line. -/
def splitLines : List Char → List (List Char)
  | [] => [[]]
  | c :: rest =>
    if c == '\n' then [] :: splitLines rest
    else
      match splitLines rest with
      | [] => [[c]]
      | l :: ls => (c :: l) :: ls

/-- Filter of the source loop on a stripped line: nonempty, not starting
with the section decoration, not starting with the noise token. -/
def qualifyCheck (line : List Char) : Bool :=
  !line.isEmpty && !(isPrefixOfB "===".toList line) && !(isPrefixOfB "lsfnjdn".toList line)

/-- Truncation of the source: the first hundred characters plus the
ellipsis marker when the line is longer than a hundred characters. -/
def truncMsg (line : List Char) : List Char :=
  if line.length > 100 then line.take 100 ++ "...".toList else line

/-- The message loop of LogParser.extract_key_info: scan lines in order,
skip a line failing the filter, skip a line passing the filter whose
stripped length does not exceed ten, and stop at the first line passing
both with the truncated stripped line. -/
def extract_message : List (List Char) → Option (List Char)
  | [] => none
  | l :: rest =>
    if qualifyCheck (stripB l) then
      (if (stripB l).length > 10 then some (truncMsg (stripB l)) else extract_message rest)
    else extract_message rest

/-- Modelled from the words of the specification: a line qualifies when it
is nonempty after trimming, does not begin with the section decoration,
does not begin with the noise token, and its trimmed length exceeds ten. -/
def qualifiesSpec (l : List Char) : Bool :=
  qualifyCheck (stripB l) && decide ((stripB l).length > 10)

/-- Modelled from the words of the specification: the first qualifying
line, trimmed and truncated, or absent when no line qualifies. -/
def extract_message_spec (lines : List (List Char)) : Option (List Char) :=
  (lines.find? qualifiesSpec).map (fun l => truncMsg (stripB l))

/-- The record LogParser.extract_key_info assembles: optional execution
date, always-present status, optional summary message. -/
structure KeyInfo where
  execution_date : Option String
  status : String
  message : Option String
deriving DecidableEq

def extract_key_info (log_content : String) : KeyInfo :=
  { execution_date := parse_execution_date log_content
    status := determine_status log_content
    message := (extract_message (splitLines log_content.toList)).map String.mk }

theorem extract_message_spec_cons (l : List Char) (rest : List (List Char)) :
    extract_message_spec (l :: rest) =
      if qualifiesSpec l then some (truncMsg (stripB l)) else extract_message_spec rest := by
  unfold extract_message_spec
  by_cases h : qualifiesSpec l = true
  · rw [List.find?_cons_of_pos _ h]
    simp [h]
  · rw [List.find?_cons_of_neg _ (by simpa using h)]
    simp [h]

theorem extract_message_eq_spec (ls : List (List Char)) :
    extract_message ls = extract_message_spec ls := by
  induction ls with
  | nil => rfl
  | cons l rest ih =>
    rw [extract_message_spec_cons]
    unfold extract_message
    by_cases hq : qualifyCheck (stripB l) = true
    · by_cases hl : (stripB l).length > 10
      · simp [qualifiesSpec, hq, hl]
      · simp [qualifiesSpec, hq, hl, ih]
    · simp [qualifiesSpec, hq, ih]

theorem truncMsg_length_le (l : List Char) : (truncMsg l).length ≤ 103 := by
  unfold truncMsg
  split
  next h =>
    have h3 : ("...".toList).length = 3 := by decide
    rw [List.length_append, List.length_take, h3]
    omega
  next h => omega

theorem extract_message_length_le :
    ∀ (ls : List (List Char)) (m : List Char), extract_message ls = some m → m.length ≤ 103 := by
  intro ls
  induction ls with
  | nil => intro m h; simp [extract_message] at h
  | cons l rest ih =>
    intro m h
    unfold extract_message at h
    split at h
    · split at h
      · simp only [Option.some.injEq] at h
        rw [← h]
        exact truncMsg_length_le _
      · exact ih m h
    · exact ih m h

/-- C7: the message field of the key-info record equals the first line of
the text that qualifies under the specification filter, trimmed and
truncated, absent when no line qualifies; and a returned message never
exceeds one hundred and three characters. -/
theorem message_extraction_spec :
    (∀ t : String,
      (extract_key_info t).message =
        (extract_message_spec (splitLines t.toList)).map String.mk)
    ∧ ∀ (t m : String), (extract_key_info t).message = some m → m.length ≤ 103 := by
  constructor
  · intro t
    show (extract_message (splitLines t.toList)).map String.mk = _
    rw [extract_message_eq_spec]
  · intro t m h
    have h2 : ∃ l, extract_message (splitLines t.toList) = some l ∧ String.mk l = m := by
      simpa [extract_key_info, Option.map_eq_some'] using h
    obtain ⟨l, hl, hm⟩ := h2
    have hlen := extract_message_length_le _ l hl
    rw [← hm]
    exact hlen

theorem message_extraction_spec_witness :
    (extract_key_info "=== cab ===\nok\nConexão estabelecida com o servidor").message =
      (extract_message_spec
        (splitLines ("=== cab ===\nok\nConexão estabelecida com o servidor").toList)).map
        String.mk
    ∧ ("Conexão estabelecida com o servidor" : String).length ≤ 103 :=
  ⟨message_extraction_spec.1 _,
    message_extraction_spec.2 "=== cab ===\nok\nConexão estabelecida com o servidor"
      "Conexão estabelecida com o servidor" (by decide)⟩

/- Job Registry and History Store.  The automations table and the logs
table are modelled as lists of rows; the SQL text comparison on the
canonical timestamp strings is bytewise, modelled by lexicographic
comparison of the character lists. -/

structure AutomationRow where
  name : String
  schedule : String
  behavior : String
  last_status : String
  last_run : Option String
deriving DecidableEq

structure LogRow where
  automation : String
  timestamp : String
  status : String
  message : String
deriving DecidableEq

structure DB where
  automations : List AutomationRow
  logs : List LogRow
deriving DecidableEq

/-- Lexicographic strict order on character lists, the order SQL uses for
text comparison of the timestamp strings. -/
def strLtB : List Char → List Char → Bool
  | [], [] => false
  | [], _ :: _ => true
  | _ :: _, [] => false
  | a :: as, b :: bs => decide (a < b) || (a == b && strLtB as bs)

/-- Order on an optional stored timestamp: an absent value precedes every
value, and present values compare lexicographically with equality. -/
def optLeB : Option String → Option String → Bool
  | none, _ => true
  | some _, none => false
  | some a, some b => strLtB a.toList b.toList || decide (a = b)

/-- Condition of the guarded seed update: the stored run is NULL or
strictly older than the incoming timestamp. -/
def nullOrLt (o : Option String) (ts : String) : Bool :=
  match o with
  | none => true
  | some s => strLtB s.toList ts.toList

/-- Row update of seed_mock_data: apply the new status and run time only
to the named row and only under the NULL-or-older guard. -/
def seedUpdateRow (status ts name : String) (r : AutomationRow) : AutomationRow :=
  if r.name == name && nullOrLt r.last_run ts then
    { r with last_status := status, last_run := some ts }
  else r

/-- Row update of add_real_log: apply the new status and run time to the
named row unconditionally. -/
def updateRowUncond (name status ts : String) (r : AutomationRow) : AutomationRow :=
  if r.name == name then { r with last_status := status, last_run := some ts } else r

/-- AutomationCLI.add_real_log: reject an unknown job name with no change
to either store; otherwise parse the log, insert a history row, and update
the last status and last run of the named job unconditionally.  The
boolean reports whether the job was found. -/
def add_real_log (db : DB) (automation_name log_content now : String) : DB × Bool :=
  if db.automations.any (fun r => r.name == automation_name) then
    let info := extract_key_info log_content
    let ts := info.execution_date.getD now
    let status := info.status
    let message := info.message.getD "Log processado automaticamente"
    (⟨db.automations.map (updateRowUncond automation_name status ts),
      db.logs ++ [⟨automation_name, ts, status, message⟩]⟩, true)
  else (db, false)

theorem optLeB_refl (o : Option String) : optLeB o o = true := by
  cases o with
  | none => rfl
  | some a => simp [optLeB]

/-- C9: submitting a log for a job name that is not registered reports the
not-found condition and leaves the registry and the history completely
unchanged. -/
theorem unknown_job_leaves_db_unchanged (db : DB) (name content now : String)
    (h : db.automations.any (fun r => r.name == name) = false) :
    add_real_log db name content now = (db, false) := by
  simp [add_real_log, h]

def dbW : DB := ⟨[⟨"C1", "0 8 * * *", "Import de Vendas", "NONE", none⟩], []⟩

theorem unknown_job_leaves_db_unchanged_witness :
    add_real_log dbW "ZZ" "Erro: x" "2025-01-01 00:00:00" = (dbW, false) :=
  unknown_job_leaves_db_unchanged dbW "ZZ" "Erro: x" "2025-01-01 00:00:00" (by decide)

def db8 : DB :=
  ⟨[⟨"C1", "0 8 * * *", "Import de Vendas", "OK", some "2025-08-29 08:00:00"⟩], []⟩

def log8 : String :=
  "=== Execução: Wed Aug 20 09:23:03 AM -03 2025 ===\nConexão aberta com sucesso."

/-- C8 counterexample: add_real_log applies the update with no timestamp
guard, so a submission whose parsed execution date is older than the
stored last run moves the stored last run backwards. -/
theorem add_real_log_moves_last_run_backwards :
    db8.automations.map AutomationRow.last_run = [some "2025-08-29 08:00:00"]
    ∧ (add_real_log db8 "C1" log8 "2025-08-30 12:00:00").1.automations.map
        AutomationRow.last_run = [some "2025-08-20 09:23:03"]
    ∧ strLtB ("2025-08-20 09:23:03").toList ("2025-08-29 08:00:00").toList = true := by
  exact ⟨by decide, by decide, by decide⟩

/-- C8 amended: in the guarded update of seed_mock_data a row is changed
only when its stored last run is NULL or strictly older than the incoming
timestamp, and the stored last run never moves backwards there; the
unconditional update of add_real_log does not have this property. -/
theorem seed_update_last_writer_wins (r : AutomationRow) (status ts name : String) :
    optLeB r.last_run (seedUpdateRow status ts name r).last_run = true
    ∧ (seedUpdateRow status ts name r ≠ r → nullOrLt r.last_run ts = true) := by
  constructor
  · unfold seedUpdateRow
    split
    next h =>
      simp only [Bool.and_eq_true] at h
      cases hr : r.last_run with
      | none => rfl
      | some a =>
        have hlt := h.2
        rw [hr] at hlt
        simp only [nullOrLt, String.toList] at hlt
        simp [optLeB, String.toList]
        exact Or.inl hlt
    next => exact optLeB_refl _
  · intro hne
    by_cases h : (r.name == name && nullOrLt r.last_run ts) = true
    · simp only [Bool.and_eq_true] at h
      exact h.2
    · unfold seedUpdateRow at hne
      rw [if_neg h] at hne
      exact absurd rfl hne

def rowW : AutomationRow := ⟨"C1", "0 8 * * *", "Import de Vendas", "NONE", none⟩

theorem seed_update_last_writer_wins_witness :
    optLeB rowW.last_run (seedUpdateRow "OK" "2025-08-29 08:00:00" "C1" rowW).last_run = true
    ∧ nullOrLt rowW.last_run "2025-08-29 08:00:00" = true :=
  ⟨(seed_update_last_writer_wins rowW "OK" "2025-08-29 08:00:00" "C1").1,
   (seed_update_last_writer_wins rowW "OK" "2025-08-29 08:00:00" "C1").2 (by decide)⟩
